import Mathlib

/-!
Verification of the binary-statistics repository: a generic inverse-CDF
sampling engine together with driver scripts that draw astrophysical
parameter samples (binary separation, eccentricity, mass, orbital
angle and phase) and hand them to a histogram-plotting helper.

The sampling engine itself lives in `sampled_custom_distribution.hh`,
which is not among the provided sources; following the specification it
is modelled here over the rationals (the scripts use IEEE doubles, whose
rounding is outside the scope of this embedding).  The distribution CDFs
(`distributions.cpp`), the plotting wrapper (`plot.cpp` and the local
copy inside `binaries_distributions.cpp`) and the three driver scripts
(`binaries.cpp`, `binaries_distributions.cpp`, `c++/vtilde.cpp`) are
embedded from the source.  The external random engine (`std::mt19937`
plus a uniform-real adapter) is abstracted as a stream of uniform
variates indexed by draw order, and `std::cos` as an abstract pure
function, both being external collaborators of the core.
-/

namespace BinaryStatistics

/-- Modelled from the spec: the construction-time failures of the
inverse-CDF sampling engine.  `DegenerateDistribution` is raised when the
probability span of the CDF over the support is zero (rationals have no
non-finite values, so the non-finite branch of the specification cannot
arise in this model); `NonMonotonicCDF` when the normalized table
probabilities decrease somewhere. -/
inductive ConstructError where
  | DegenerateDistribution
  | NonMonotonicCDF
deriving DecidableEq, Repr

/-- Modelled from the spec: the per-call failure of `sample`, raised when
the caller supplies a uniform variate outside the half-open unit
interval. -/
inductive SampleError where
  | OutOfRangeVariate
deriving DecidableEq, Repr

/-- Modelled from the spec: a sampler instance owning its precomputed
table.  `probs` holds the normalized cumulative probabilities and `xs`
the matching evenly spaced domain points; `lower` and `upper` are the
support bounds.  The instance is immutable after construction. -/
structure InverseCDFSampler where
  probs : List ℚ
  xs : List ℚ
  lower : ℚ
  upper : ℚ
deriving DecidableEq, Repr

/-- Modelled from the spec: the i-th of N evenly spaced domain points
spanning the support interval. -/
def gridPoint (lower upper : ℚ) (N i : ℕ) : ℚ :=
  lower + (upper - lower) * i / ((N : ℚ) - 1)

/-- Modelled from the spec: the list of the N evenly spaced domain
points. -/
def gridList (lower upper : ℚ) (N : ℕ) : List ℚ :=
  (List.range N).map (gridPoint lower upper N)

/-- Modelled from the spec: the normalization span of the CDF over the
support, `cdf(x_(N-1)) - cdf(x_0)`. -/
def probSpan (cdf : ℚ → ℚ) (lower upper : ℚ) (N : ℕ) : ℚ :=
  cdf (gridPoint lower upper N (N - 1)) - cdf (gridPoint lower upper N 0)

/-- Modelled from the spec: the i-th normalized table probability,
`(cdf(x_i) - cdf(x_0)) / (cdf(x_(N-1)) - cdf(x_0))`. -/
def normProb (cdf : ℚ → ℚ) (lower upper : ℚ) (N i : ℕ) : ℚ :=
  (cdf (gridPoint lower upper N i) - cdf (gridPoint lower upper N 0)) /
    probSpan cdf lower upper N

/-- Modelled from the spec: sampler construction.  Evaluate the CDF on
the grid, fail with `DegenerateDistribution` when the probability span is
zero, normalize so the first probability is 0 and the last is 1, fail
with `NonMonotonicCDF` when the normalized probabilities decrease
anywhere, and otherwise store the table. -/
def construct (cdf : ℚ → ℚ) (lower upper : ℚ) (N : ℕ) :
    Except ConstructError InverseCDFSampler :=
  if probSpan cdf lower upper N = 0 then .error .DegenerateDistribution
  else
    let probs := (List.range N).map (normProb cdf lower upper N)
    if probs.Chain' (· ≤ ·) then
      .ok ⟨probs, gridList lower upper N, lower, upper⟩
    else .error .NonMonotonicCDF

/-- Modelled from the spec: the monotonic-search step.  Index of the
first entry of the list that is at least u (the length of the list when
there is none). -/
def seekIdx (u : ℚ) : List ℚ → ℕ
  | [] => 0
  | p :: ps => if u ≤ p then 0 else seekIdx u ps + 1

/-- Modelled from the spec: the index i of the table segment containing
u, i.e. the first segment whose right endpoint is at least u. -/
def searchSegment (probs : List ℚ) (u : ℚ) : ℕ :=
  seekIdx u (probs.drop 1)

/-- Modelled from the spec: the sampling operation.  Reject a uniform
variate outside the half-open unit interval with `OutOfRangeVariate`;
otherwise locate the table segment containing u, return the lower
endpoint of a flat segment, and otherwise linearly interpolate. -/
def sample (s : InverseCDFSampler) (u : ℚ) : Except SampleError ℚ :=
  if u < 0 ∨ 1 ≤ u then .error .OutOfRangeVariate
  else
    let i := searchSegment s.probs u
    let pLo := s.probs.getD i 0
    let pHi := s.probs.getD (i + 1) 0
    let xLo := s.xs.getD i 0
    let xHi := s.xs.getD (i + 1) 0
    if pLo = pHi then .ok xLo
    else .ok (xLo + (xHi - xLo) * (u - pLo) / (pHi - pLo))

/-- Modelled from the spec: a run of sample calls against one sampler,
one call per supplied uniform variate, in order. -/
def sampleSeq (s : InverseCDFSampler) (us : List ℚ) :
    List (Except SampleError ℚ) :=
  us.map (sample s)

/-- The thermal CDF from `distributions.cpp`: `thermal(x) = x * x`
(the CDF of the PDF 2x). -/
def thermal (x : ℚ) : ℚ := x * x

/-- The uniform CDF from `distributions.cpp`: `uniform(x) = x`
(the CDF of the PDF 1). -/
def uniform (x : ℚ) : ℚ := x

/-- A concrete CDF with a flat region on the lower half of its support,
used as a concrete input to the sampler model. -/
def rampCdf (x : ℚ) : ℚ := if x < 1/2 then 0 else x - 1/2

/-- A concrete constant CDF, used as a concrete degenerate input to the
sampler model. -/
def constCdf (_ : ℚ) : ℚ := 3/7

/-- The number of samples each driver script draws per distribution:
`const int num_samples = 10000` in all three drivers. -/
def numSamples : ℕ := 10000

/-- One iteration of the loop in `binaries.cpp`: the six parameter
samples drawn in source order plus the derived binary separation. -/
structure BinariesRow where
  bin_sep : ℚ
  eccen : ℚ
  eccen2 : ℚ
  mass : ℚ
  orbit_angle : ℚ
  orbit_phase : ℚ
  separation : ℚ
deriving DecidableEq, Repr, Inhabited

/-- The loop of `binaries.cpp`.  The six samplers are abstracted as the
variate-to-value maps obtained from their tables, the shared random
engine as the stream `gen` consumed one draw per sampler call (six draws
per iteration, in source order), and `std::cos` as the abstract pure
function `cosF`.  Iteration i stores the six samples and
`separation = bin_sep * (1 - eccen2) / (1 + eccen * cos(orbit_phase))`. -/
def binariesDriver (cosF : ℚ → ℚ)
    (bin_sep_pdf eccen_pdf eccen2_pdf mass_pdf orbit_angle_pdf
      orbit_phase_pdf : ℚ → ℚ) (gen : ℕ → ℚ) : List BinariesRow :=
  (List.range numSamples).map (fun i =>
    let b := bin_sep_pdf (gen (6 * i))
    let e := eccen_pdf (gen (6 * i + 1))
    let e2 := eccen2_pdf (gen (6 * i + 2))
    let m := mass_pdf (gen (6 * i + 3))
    let oa := orbit_angle_pdf (gen (6 * i + 4))
    let op := orbit_phase_pdf (gen (6 * i + 5))
    { bin_sep := b, eccen := e, eccen2 := e2, mass := m,
      orbit_angle := oa, orbit_phase := op,
      separation := b * (1 - e2) / (1 + e * cosF op) })

/-- One iteration of the loop in `binaries_distributions.cpp`: the five
parameter samples drawn in source order. -/
structure BinariesDistributionsRow where
  bin_sep : ℚ
  eccen : ℚ
  eccen2 : ℚ
  mass : ℚ
  orbit_angle : ℚ
deriving DecidableEq, Repr

/-- The loop of `binaries_distributions.cpp`: five sampler calls per
iteration, in source order, five draws of the shared engine per
iteration. -/
def binariesDistributionsDriver
    (bin_sep_pdf eccen_pdf eccen2_pdf mass_pdf orbit_angle_pdf : ℚ → ℚ)
    (gen : ℕ → ℚ) : List BinariesDistributionsRow :=
  (List.range numSamples).map (fun i =>
    { bin_sep := bin_sep_pdf (gen (5 * i)),
      eccen := eccen_pdf (gen (5 * i + 1)),
      eccen2 := eccen2_pdf (gen (5 * i + 2)),
      mass := mass_pdf (gen (5 * i + 3)),
      orbit_angle := orbit_angle_pdf (gen (5 * i + 4)) })

/-- The loop of `c++/vtilde.cpp`: one sampler call per iteration on the
eccentricity sampler. -/
def vtildeDriver (e_pdf : ℚ → ℚ) (gen : ℕ → ℚ) : List ℚ :=
  (List.range numSamples).map (fun i => e_pdf (gen i))

/-- The arguments handed to the matplotlib collaborator by one call of a
plot wrapper: histogram data, display options, axis labels, title, and
the output path passed to `plt::save(save_file, 300)`. -/
structure PlotCall where
  hist : List ℚ
  bins : ℕ
  color : String
  alpha : ℚ
  density : Bool
  cumulative : Bool
  xlabel : String
  ylabel : String
  title : String
  savePath : String
  dpi : ℕ
deriving DecidableEq, Repr

/-- The default value of the `save_file` parameter of both plot wrappers:
`string save_file="plot.png"`.  A C++ call that omits the trailing
argument is modelled by passing this value explicitly. -/
def plotSaveFileDefault : String := "plot.png"

/-- The plot wrapper of `plot.cpp`: ylabel is Density or Frequency
according to the density flag, a nonempty units string is wrapped in
dollar-parentheses and appended to the parameter name for the x label,
and the figure is saved to `save_file` at 300 dpi. -/
def plot (hist : List ℚ) (bins : ℕ) (color : String) (alpha : ℚ)
    (density : Bool) (cumulative : Bool) (parameter units save_file : String) :
    PlotCall :=
  let ylabel := if density then "Density" else "Frequency"
  let units2 := if units ≠ "" then " $(" ++ units ++ ")$" else units
  { hist := hist, bins := bins, color := color, alpha := alpha,
    density := density, cumulative := cumulative,
    xlabel := parameter ++ units2, ylabel := ylabel,
    title := parameter ++ " distribution", savePath := save_file, dpi := 300 }

/-- The local plot wrapper defined inside `binaries_distributions.cpp`:
identical to the one of `plot.cpp` except that the non-density ylabel is
Counts instead of Frequency. -/
def plotCounts (hist : List ℚ) (bins : ℕ) (color : String) (alpha : ℚ)
    (density : Bool) (cumulative : Bool) (parameter units save_file : String) :
    PlotCall :=
  let ylabel := if density then "Density" else "Counts"
  let units2 := if units ≠ "" then " $(" ++ units ++ ")$" else units
  { hist := hist, bins := bins, color := color, alpha := alpha,
    density := density, cumulative := cumulative,
    xlabel := parameter ++ units2, ylabel := ylabel,
    title := parameter ++ " distribution", savePath := save_file, dpi := 300 }

/-- The eccentricity plot call of `binaries_distributions.cpp`: the call
passes eight arguments, so the units parameter receives the string
"./plots/eccentricity.png" and `save_file` is filled by its default. -/
def eccentricityPlotCall (eccen_dist : List ℚ) : PlotCall :=
  plotCounts eccen_dist 30 "blue" 1 true false "Eccentricity"
    "./plots/eccentricity.png" plotSaveFileDefault

/-- The sampler the model constructs from the uniform CDF over the unit
interval with a five-point table. -/
def sUnif5 : InverseCDFSampler :=
  ⟨[0, 1/4, 1/2, 3/4, 1], [0, 1/4, 1/2, 3/4, 1], 0, 1⟩

/-- The sampler the model constructs from `rampCdf` over the unit
interval with a five-point table; its first two table probabilities are
equal, so the segment located for u = 0 is flat. -/
def sRamp5 : InverseCDFSampler :=
  ⟨[0, 0, 0, 1/2, 1], [0, 1/4, 1/2, 3/4, 1], 0, 1⟩

/-- The sampler the model constructs from the thermal CDF over the unit
interval with a twelve-point table (grid spacing 1/11). -/
def sThermal12 : InverseCDFSampler :=
  ⟨[0, 1/121, 4/121, 9/121, 16/121, 25/121, 36/121, 49/121, 64/121,
      81/121, 100/121, 1],
    [0, 1/11, 2/11, 3/11, 4/11, 5/11, 6/11, 7/11, 8/11, 9/11, 10/11, 1],
    0, 1⟩

section Helpers

/-- Element i of the list mapping f over the range of n is f i. -/
lemma getD_range_map {α : Type} (f : ℕ → α) {n i : ℕ} (d : α) (hi : i < n) :
    ((List.range n).map f).getD i d = f i := by
  rw [List.getD_eq_getElem?_getD, List.getElem?_map, List.getElem?_range hi]
  rfl

/-- Dropping the head shifts getD indices by one. -/
lemma getD_drop_one {α : Type} (l : List α) (j : ℕ) (d : α) :
    (l.drop 1).getD j d = l.getD (j + 1) d := by
  cases l with
  | nil => simp
  | cons a as => simp [List.getD_cons_succ]

/-- Adjacent entries of a chain-ordered list of rationals are ordered. -/
lemma chain'_getD_le {l : List ℚ} (h : l.Chain' (· ≤ ·)) {i : ℕ}
    (hi : i + 1 < l.length) : l.getD i 0 ≤ l.getD (i + 1) 0 := by
  have h2 := (List.chain'_iff_get.mp h) i (by omega)
  rw [List.getD_eq_getElem?_getD, List.getD_eq_getElem?_getD,
    List.getElem?_eq_getElem (by omega : i < l.length),
    List.getElem?_eq_getElem hi]
  simpa using h2

/-- The search never runs past the end of the list. -/
lemma seekIdx_le_length (u : ℚ) (l : List ℚ) : seekIdx u l ≤ l.length := by
  induction l with
  | nil => simp [seekIdx]
  | cons p ps ih =>
    by_cases h : u ≤ p
    · simp [seekIdx, h]
    · simp [seekIdx, h]
      omega

/-- Minimality upper bound: the search stops no later than any index
whose entry is already at least u. -/
lemma seekIdx_le_of_le (u : ℚ) {l : List ℚ} {j : ℕ} (hj : j < l.length)
    (hle : u ≤ l.getD j 0) : seekIdx u l ≤ j := by
  induction l generalizing j with
  | nil => simp at hj
  | cons p ps ih =>
    by_cases h : u ≤ p
    · simp [seekIdx, h]
    · cases j with
      | zero => simp [List.getD_cons_zero] at hle; exact absurd hle h
      | succ j =>
        have := ih (j := j) (by simpa using hj) (by simpa using hle)
        simp [seekIdx, h]
        omega

/-- The entry at the found index is at least u, provided the search found
one. -/
lemma le_getD_seekIdx (u : ℚ) {l : List ℚ} (h : seekIdx u l < l.length) :
    u ≤ l.getD (seekIdx u l) 0 := by
  induction l with
  | nil => simp at h
  | cons p ps ih =>
    by_cases hp : u ≤ p
    · simp [seekIdx, hp]
    · simp only [seekIdx, if_neg hp, List.getD_cons_succ]
      simp only [seekIdx, if_neg hp, List.length_cons] at h
      exact ih (by omega)

/-- Entries strictly before the found index are strictly below u. -/
lemma getD_lt_of_lt_seekIdx (u : ℚ) {l : List ℚ} {j : ℕ}
    (hj : j < seekIdx u l) : l.getD j 0 < u := by
  induction l generalizing j with
  | nil => simp [seekIdx] at hj
  | cons p ps ih =>
    by_cases hp : u ≤ p
    · simp [seekIdx, hp] at hj
    · cases j with
      | zero => simpa using not_le.1 hp
      | succ j =>
        simp only [seekIdx, if_neg hp] at hj
        simpa using ih (by omega)

/-- The found index is monotone in the sought value. -/
lemma seekIdx_mono (l : List ℚ) {u v : ℚ} (huv : u ≤ v) :
    seekIdx u l ≤ seekIdx v l := by
  induction l with
  | nil => simp [seekIdx]
  | cons p ps ih =>
    by_cases hv : v ≤ p
    · have hu : u ≤ p := le_trans huv hv
      simp [seekIdx, hu, hv]
    · by_cases hu : u ≤ p
      · simp [seekIdx, hu, hv]
      · simp [seekIdx, hu, hv]
        omega

end Helpers

section ConcreteEvaluations

/-- The model constructs `sUnif5` from the uniform CDF over the unit
interval with five table points. -/
lemma construct_uniform5 : construct uniform 0 1 5 = .ok sUnif5 := by
  norm_num [construct, probSpan, normProb, gridList, gridPoint, uniform, sUnif5,
    List.range_succ]

/-- Sampling `sUnif5` at u = 1/3 interpolates to 1/3. -/
lemma sample_uniform5_third : sample sUnif5 (1/3) = .ok (1/3) := by
  norm_num [sample, searchSegment, seekIdx, sUnif5]

/-- Sampling `sUnif5` at u = 1/2 interpolates to 1/2. -/
lemma sample_uniform5_half : sample sUnif5 (1/2) = .ok (1/2) := by
  norm_num [sample, searchSegment, seekIdx, sUnif5]

/-- The model constructs `sRamp5` from `rampCdf` over the unit interval
with five table points. -/
lemma construct_ramp5 : construct rampCdf 0 1 5 = .ok sRamp5 := by
  norm_num [construct, probSpan, normProb, gridList, gridPoint, rampCdf, sRamp5,
    List.range_succ]

/-- The model constructs `sThermal12` from the thermal CDF over the unit
interval with twelve table points. -/
lemma construct_thermal12 : construct thermal 0 1 12 = .ok sThermal12 := by
  norm_num [construct, probSpan, normProb, gridList, gridPoint, thermal,
    sThermal12, List.range_succ]

/-- Sampling `sThermal12` at u = 1/4 interpolates to 241/484. -/
lemma sample_thermal12_quarter : sample sThermal12 (1/4) = .ok (241/484) := by
  norm_num [sample, searchSegment, seekIdx, sThermal12]

end ConcreteEvaluations

section SamplerLemmas

variable {cdf : ℚ → ℚ} {lower upper : ℚ} {N : ℕ} {s : InverseCDFSampler}

/-- What a successful construction guarantees: a nonzero span, the
normalized probability table, the grid of domain points, the stored
bounds, and monotonicity of the table probabilities. -/
lemma construct_ok_elim (h : construct cdf lower upper N = .ok s) :
    probSpan cdf lower upper N ≠ 0 ∧
    s.probs = (List.range N).map (normProb cdf lower upper N) ∧
    s.xs = gridList lower upper N ∧
    s.lower = lower ∧ s.upper = upper ∧
    s.probs.Chain' (· ≤ ·) := by
  simp only [construct] at h
  split at h
  · exact Except.noConfusion h
  · rename_i hspan
    split at h
    · rename_i hchain
      injection h with h2
      subst h2
      exact ⟨hspan, rfl, rfl, rfl, rfl, hchain⟩
    · exact Except.noConfusion h

/-- A successful construction needs at least two table points: with
fewer, the first and last grid points coincide and the span is zero. -/
lemma construct_ok_two_le (h : construct cdf lower upper N = .ok s) :
    2 ≤ N := by
  have hspan := (construct_ok_elim h).1
  by_contra hc
  have hN1 : N - 1 = 0 := by omega
  rw [probSpan, hN1, sub_self] at hspan
  exact hspan rfl

/-- Element i of the grid list is the i-th grid point. -/
lemma gridList_getD {i : ℕ} (hi : i < N) :
    (gridList lower upper N).getD i 0 = gridPoint lower upper N i :=
  getD_range_map _ 0 hi

/-- The first grid point is the lower support bound. -/
lemma gridPoint_zero : gridPoint lower upper N 0 = lower := by
  simp [gridPoint]

/-- The last grid point is the upper support bound. -/
lemma gridPoint_last (hN : 2 ≤ N) :
    gridPoint lower upper N (N - 1) = upper := by
  have h1 : ((N - 1 : ℕ) : ℚ) = (N : ℚ) - 1 := by
    have : (1 : ℕ) ≤ N := by omega
    push_cast [this]
    ring
  have h2 : (N : ℚ) - 1 ≠ 0 := by
    have h3 : (2 : ℚ) ≤ (N : ℚ) := by exact_mod_cast hN
    intro hc
    rw [sub_eq_zero] at hc
    rw [hc] at h3
    norm_num at h3
  rw [gridPoint, h1, mul_div_assoc, div_self h2]
  ring

/-- The grid is monotone when the bounds are ordered. -/
lemma gridPoint_mono (hN : 2 ≤ N) (hlu : lower ≤ upper) {i j : ℕ}
    (hij : i ≤ j) : gridPoint lower upper N i ≤ gridPoint lower upper N j := by
  have hN1 : (0 : ℚ) < (N : ℚ) - 1 := by
    have : (2 : ℚ) ≤ (N : ℚ) := by exact_mod_cast hN
    linarith
  have hc : (i : ℚ) ≤ (j : ℚ) := by exact_mod_cast hij
  have h2 : (0 : ℚ) ≤ upper - lower := by linarith
  rw [gridPoint, gridPoint]
  have h3 := mul_le_mul_of_nonneg_left hc h2
  have h4 := (div_le_div_iff_of_pos_right hN1).mpr h3
  linarith

/-- The first normalized probability is zero. -/
lemma normProb_zero : normProb cdf lower upper N 0 = 0 := by
  simp [normProb]

/-- The last normalized probability is one when the span is nonzero. -/
lemma normProb_last (hspan : probSpan cdf lower upper N ≠ 0) :
    normProb cdf lower upper N (N - 1) = 1 := by
  rw [normProb, ← probSpan, div_self hspan]

/-- Linear interpolation between ordered endpoints stays between them. -/
lemma interp_bounds {a b p q u : ℚ} (hab : a ≤ b) (hpq : p < q)
    (hpu : p ≤ u) (huq : u ≤ q) :
    a ≤ a + (b - a) * (u - p) / (q - p) ∧
      a + (b - a) * (u - p) / (q - p) ≤ b := by
  have hq : 0 < q - p := by linarith
  constructor
  · have h1 : 0 ≤ (b - a) * (u - p) / (q - p) :=
      div_nonneg (mul_nonneg (by linarith) (by linarith)) (le_of_lt hq)
    linarith
  · have h2 : (b - a) * (u - p) / (q - p) ≤ b - a := by
      rw [div_le_iff₀ hq]
      exact mul_le_mul_of_nonneg_left (by linarith) (by linarith)
    linarith

/-- Linear interpolation is monotone in the interpolated value. -/
lemma interp_mono {a b p q u v : ℚ} (hab : a ≤ b) (hpq : p < q)
    (huv : u ≤ v) :
    a + (b - a) * (u - p) / (q - p) ≤ a + (b - a) * (v - p) / (q - p) := by
  have hq : 0 < q - p := by linarith
  have h1 : (b - a) * (u - p) ≤ (b - a) * (v - p) :=
    mul_le_mul_of_nonneg_left (by linarith) (by linarith)
  have h2 := (div_le_div_iff_of_pos_right hq).mpr h1
  linarith

/-- The core description of a successful in-range sample call against a
constructed sampler: the located segment sits inside the table and
brackets the variate, and the returned value is the lower endpoint of a
flat segment or else the linear interpolant. -/
lemma sample_ok_core (h : construct cdf lower upper N = .ok s) {u : ℚ}
    (hu0 : 0 ≤ u) (hu1 : u < 1) :
    2 ≤ N ∧ searchSegment s.probs u + 1 ≤ N - 1 ∧
    normProb cdf lower upper N (searchSegment s.probs u) ≤ u ∧
    u ≤ normProb cdf lower upper N (searchSegment s.probs u + 1) ∧
    ((normProb cdf lower upper N (searchSegment s.probs u) =
        normProb cdf lower upper N (searchSegment s.probs u + 1) ∧
      sample s u = .ok (gridPoint lower upper N (searchSegment s.probs u))) ∨
     (normProb cdf lower upper N (searchSegment s.probs u) <
        normProb cdf lower upper N (searchSegment s.probs u + 1) ∧
      sample s u = .ok (gridPoint lower upper N (searchSegment s.probs u) +
        (gridPoint lower upper N (searchSegment s.probs u + 1) -
            gridPoint lower upper N (searchSegment s.probs u)) *
          (u - normProb cdf lower upper N (searchSegment s.probs u)) /
          (normProb cdf lower upper N (searchSegment s.probs u + 1) -
            normProb cdf lower upper N (searchSegment s.probs u))))) := by
  obtain ⟨hspan, hprobs, hxs, hlo, hup, hchain⟩ := construct_ok_elim h
  have hN := construct_ok_two_le h
  have hlen : s.probs.length = N := by rw [hprobs]; simp
  have hdlen : (s.probs.drop 1).length = N - 1 := by simp [hlen]
  have hdget : ∀ j, j + 1 < N →
      (s.probs.drop 1).getD j 0 = normProb cdf lower upper N (j + 1) := by
    intro j hj
    rw [getD_drop_one, hprobs, getD_range_map _ 0 hj]
  have htop : u ≤ (s.probs.drop 1).getD (N - 2) 0 := by
    rw [hdget (N - 2) (by omega)]
    have he : N - 2 + 1 = N - 1 := by omega
    rw [he, normProb_last hspan]
    exact le_of_lt hu1
  have hseek : searchSegment s.probs u ≤ N - 2 :=
    seekIdx_le_of_le u (by rw [hdlen]; omega) htop
  have hlow : normProb cdf lower upper N (searchSegment s.probs u) ≤ u := by
    rcases Nat.eq_zero_or_pos (searchSegment s.probs u) with h0 | hpos
    · rw [h0, normProb_zero]
      exact hu0
    · have hj : searchSegment s.probs u - 1 < searchSegment s.probs u := by omega
      have hlt := getD_lt_of_lt_seekIdx u hj
      rw [hdget (searchSegment s.probs u - 1) (by omega)] at hlt
      have heq : searchSegment s.probs u - 1 + 1 = searchSegment s.probs u := by
        omega
      rw [heq] at hlt
      exact le_of_lt hlt
  have hilt : searchSegment s.probs u < (s.probs.drop 1).length := by
    rw [hdlen]
    omega
  have hhigh : u ≤ (s.probs.drop 1).getD (searchSegment s.probs u) 0 :=
    le_getD_seekIdx u hilt
  rw [hdget (searchSegment s.probs u) (by omega)] at hhigh
  have hc : ¬(u < 0 ∨ 1 ≤ u) := by
    push_neg
    exact ⟨hu0, hu1⟩
  have hgetP : ∀ k, k < N → s.probs.getD k 0 = normProb cdf lower upper N k := by
    intro k hk
    rw [hprobs, getD_range_map _ 0 hk]
  have hgetX : ∀ k, k < N → s.xs.getD k 0 = gridPoint lower upper N k := by
    intro k hk
    rw [hxs]
    exact gridList_getD hk
  have hpLo := hgetP (searchSegment s.probs u) (by omega)
  have hpHi := hgetP (searchSegment s.probs u + 1) (by omega)
  have hxLo := hgetX (searchSegment s.probs u) (by omega)
  have hxHi := hgetX (searchSegment s.probs u + 1) (by omega)
  have hadj : normProb cdf lower upper N (searchSegment s.probs u) ≤
      normProb cdf lower upper N (searchSegment s.probs u + 1) := by
    have hch := chain'_getD_le hchain (i := searchSegment s.probs u)
      (by rw [hlen]; omega)
    rwa [hpLo, hpHi] at hch
  refine ⟨hN, by omega, hlow, hhigh, ?_⟩
  by_cases hflat : normProb cdf lower upper N (searchSegment s.probs u) =
      normProb cdf lower upper N (searchSegment s.probs u + 1)
  · left
    refine ⟨hflat, ?_⟩
    unfold sample
    rw [if_neg hc]
    dsimp only
    rw [hpLo, hpHi, hxLo, if_pos hflat]
  · right
    refine ⟨lt_of_le_of_ne hadj hflat, ?_⟩
    unfold sample
    rw [if_neg hc]
    dsimp only
    rw [hpLo, hpHi, hxLo, hxHi, if_neg hflat]

end SamplerLemmas

section Claims

variable {cdf : ℚ → ℚ} {lower upper : ℚ} {N : ℕ} {s : InverseCDFSampler}

/-- C1: for every sampler successfully constructed from a CDF with
bounds lower < upper and every uniform variate u in [0, 1), the value
returned by sample(u) lies within the closed interval [lower, upper]. -/
theorem sample_within_support (cdf : ℚ → ℚ) {lower upper : ℚ} {N : ℕ}
    {s : InverseCDFSampler} {u y : ℚ}
    (h : construct cdf lower upper N = .ok s) (hlu : lower < upper)
    (hu0 : 0 ≤ u) (hu1 : u < 1) (hy : sample s u = .ok y) :
    lower ≤ y ∧ y ≤ upper := by
  obtain ⟨hN, hseg, hlow, hhigh, hval⟩ := sample_ok_core h hu0 hu1
  have hle : lower ≤ upper := le_of_lt hlu
  have g0 : lower ≤ gridPoint lower upper N (searchSegment s.probs u) := by
    have hm := gridPoint_mono hN hle (Nat.zero_le (searchSegment s.probs u))
    rwa [gridPoint_zero] at hm
  have gtop : gridPoint lower upper N (searchSegment s.probs u + 1) ≤ upper := by
    have hm := gridPoint_mono hN hle hseg
    rwa [gridPoint_last hN] at hm
  have gstep : gridPoint lower upper N (searchSegment s.probs u) ≤
      gridPoint lower upper N (searchSegment s.probs u + 1) :=
    gridPoint_mono hN hle (Nat.le_succ _)
  rcases hval with ⟨hflat, hv⟩ | ⟨hlt, hv⟩
  · rw [hv] at hy
    injection hy with hy2
    subst hy2
    exact ⟨g0, le_trans gstep gtop⟩
  · rw [hv] at hy
    injection hy with hy2
    obtain ⟨hb1, hb2⟩ := interp_bounds gstep hlt hlow hhigh
    subst hy2
    exact ⟨le_trans g0 hb1, le_trans hb2 gtop⟩

/-- Witness for C1 at the uniform CDF over the unit interval with a
five-point table and u = 1/3: the sample 1/3 lies within the bounds. -/
theorem sample_within_support_witness :
    (0 : ℚ) < 1 ∧ (0 : ℚ) ≤ 1/3 ∧ ((0 : ℚ) ≤ 1/3 ∧ (1/3 : ℚ) ≤ 1) :=
  ⟨by norm_num, by norm_num,
    sample_within_support uniform construct_uniform5 (by norm_num) (by norm_num)
      (by norm_num) sample_uniform5_third⟩

/-- C2: sampling is monotonically non-decreasing in the uniform variate:
for u1 < u2, both in [0, 1), sample(u1) is at most sample(u2). -/
theorem sample_monotone (cdf : ℚ → ℚ) {lower upper : ℚ} {N : ℕ}
    {s : InverseCDFSampler} {u1 u2 y1 y2 : ℚ}
    (h : construct cdf lower upper N = .ok s) (hlu : lower < upper)
    (hu0 : 0 ≤ u1) (hu2 : u2 < 1) (h12 : u1 < u2)
    (hy1 : sample s u1 = .ok y1) (hy2 : sample s u2 = .ok y2) :
    y1 ≤ y2 := by
  have hu1lt : u1 < 1 := lt_trans h12 hu2
  have hu20 : 0 ≤ u2 := le_trans hu0 (le_of_lt h12)
  obtain ⟨hN, hseg1, hlow1, hhigh1, hval1⟩ := sample_ok_core h hu0 hu1lt
  obtain ⟨-, hseg2, hlow2, hhigh2, hval2⟩ := sample_ok_core h hu20 hu2
  have hle : lower ≤ upper := le_of_lt hlu
  have hidx : searchSegment s.probs u1 ≤ searchSegment s.probs u2 :=
    seekIdx_mono _ (le_of_lt h12)
  have gstep1 : gridPoint lower upper N (searchSegment s.probs u1) ≤
      gridPoint lower upper N (searchSegment s.probs u1 + 1) :=
    gridPoint_mono hN hle (Nat.le_succ _)
  have gstep2 : gridPoint lower upper N (searchSegment s.probs u2) ≤
      gridPoint lower upper N (searchSegment s.probs u2 + 1) :=
    gridPoint_mono hN hle (Nat.le_succ _)
  rcases Nat.lt_or_ge (searchSegment s.probs u1) (searchSegment s.probs u2)
    with hcross | hge
  · -- the two variates land in different segments
    have hmid : gridPoint lower upper N (searchSegment s.probs u1 + 1) ≤
        gridPoint lower upper N (searchSegment s.probs u2) :=
      gridPoint_mono hN hle (by omega)
    have hy1le : y1 ≤ gridPoint lower upper N (searchSegment s.probs u1 + 1) := by
      rcases hval1 with ⟨hflat, hv⟩ | ⟨hlt, hv⟩
      · rw [hv] at hy1
        injection hy1 with hv2
        subst hv2
        exact gstep1
      · rw [hv] at hy1
        injection hy1 with hv2
        subst hv2
        exact (interp_bounds gstep1 hlt hlow1 hhigh1).2
    have hy2ge : gridPoint lower upper N (searchSegment s.probs u2) ≤ y2 := by
      rcases hval2 with ⟨hflat, hv⟩ | ⟨hlt, hv⟩
      · rw [hv] at hy2
        injection hy2 with hv2
        subst hv2
        exact le_refl _
      · rw [hv] at hy2
        injection hy2 with hv2
        subst hv2
        exact (interp_bounds gstep2 hlt hlow2 hhigh2).1
    linarith
  · -- the two variates land in the same segment
    have heq : searchSegment s.probs u1 = searchSegment s.probs u2 :=
      le_antisymm hidx hge
    rw [heq] at hval1 hlow1 hhigh1
    rcases hval1 with ⟨hflat1, hv1⟩ | ⟨hlt1, hv1⟩ <;>
      rcases hval2 with ⟨hflat2, hv2⟩ | ⟨hlt2, hv2⟩
    · rw [hv1] at hy1
      rw [hv2] at hy2
      injection hy1 with he1
      injection hy2 with he2
      subst he1
      subst he2
      exact le_refl _
    · exact absurd hflat1 (ne_of_lt hlt2)
    · exact absurd hflat2 (ne_of_lt hlt1)
    · rw [hv1] at hy1
      rw [hv2] at hy2
      injection hy1 with he1
      injection hy2 with he2
      subst he1
      subst he2
      exact interp_mono gstep2 hlt2 (le_of_lt h12)

/-- Witness for C2 at the uniform CDF over the unit interval with a
five-point table, u1 = 1/3 and u2 = 1/2: sample(1/3) is at most
sample(1/2). -/
theorem sample_monotone_witness :
    (0 : ℚ) < 1 ∧ (1/3 : ℚ) < 1/2 ∧ (1/3 : ℚ) ≤ 1/2 :=
  ⟨by norm_num, by norm_num,
    sample_monotone uniform construct_uniform5 (by norm_num) (by norm_num)
      (by norm_num) (by norm_num) sample_uniform5_third sample_uniform5_half⟩

/-- C3: each sample call is a pure function of the supplied uniform
variate and the sampler table: in any run of calls, the result at a
position depends only on the variate supplied there, not on the calls
before or after it, and two calls with the same variate return the same
value. -/
theorem sample_pure_per_call (s : InverseCDFSampler) (us1 us2 : List ℚ)
    (u : ℚ) :
    (sampleSeq s (us1 ++ u :: us2)).getD us1.length
        (.error .OutOfRangeVariate) = sample s u ∧
    sampleSeq s [u, u] = [sample s u, sample s u] := by
  constructor
  · induction us1 with
    | nil => rfl
    | cons v vs ih => simpa [sampleSeq] using ih
  · rfl

/-- C4: a CDF whose normalization span over the support is zero (in
particular a constant CDF) makes construction fail with
DegenerateDistribution, so no sampler is created. -/
theorem construct_degenerate_of_flat_span (cdf : ℚ → ℚ) (lower upper : ℚ)
    (N : ℕ) (h : probSpan cdf lower upper N = 0) :
    construct cdf lower upper N = .error .DegenerateDistribution := by
  unfold construct
  rw [if_pos h]

/-- Witness for C4 at the constant CDF over the unit interval with a
five-point table: the span is zero and construction fails. -/
theorem construct_degenerate_of_flat_span_witness :
    probSpan constCdf 0 1 5 = 0 ∧
    construct constCdf 0 1 5 = .error .DegenerateDistribution :=
  ⟨by norm_num [probSpan, constCdf],
    construct_degenerate_of_flat_span constCdf 0 1 5
      (by norm_num [probSpan, constCdf])⟩

/-- C5: a sample call fails with OutOfRangeVariate exactly when the
supplied variate lies outside [0, 1), and any in-range call on the same
sampler still succeeds: the per-call failure does not invalidate the
sampler. -/
theorem sample_out_of_range (s : InverseCDFSampler) (u v : ℚ) :
    (sample s u = .error .OutOfRangeVariate ↔ u < 0 ∨ 1 ≤ u) ∧
    (0 ≤ v → v < 1 → ∃ y, sample s v = .ok y) := by
  constructor
  · constructor
    · intro h
      by_contra hc
      unfold sample at h
      rw [if_neg hc] at h
      dsimp only at h
      split at h
      · exact Except.noConfusion h
      · exact Except.noConfusion h
    · intro h
      unfold sample
      rw [if_pos h]
  · intro h0 h1
    have hc : ¬(v < 0 ∨ 1 ≤ v) := by
      push_neg
      exact ⟨h0, h1⟩
    unfold sample
    rw [if_neg hc]
    dsimp only
    split
    · exact ⟨_, rfl⟩
    · exact ⟨_, rfl⟩

/-- Witness for C5: sample(1.0) fails with OutOfRangeVariate on the
concrete uniform-CDF sampler, while a subsequent sample(1/2) on the same
sampler succeeds. -/
theorem sample_out_of_range_witness :
    (sample sUnif5 1 = .error .OutOfRangeVariate ↔
      (1 : ℚ) < 0 ∨ (1 : ℚ) ≤ 1) ∧
    ∃ y, sample sUnif5 (1/2) = .ok y :=
  ⟨(sample_out_of_range sUnif5 1 (1/2)).1,
    (sample_out_of_range sUnif5 1 (1/2)).2 (by norm_num) (by norm_num)⟩

/-- C6: when the table segment located for an in-range variate is flat
(equal adjacent table probabilities), sample returns its lower domain
endpoint deterministically instead of interpolating, so the
interpolation division is never taken on a zero denominator. -/
theorem sample_flat_segment (s : InverseCDFSampler) (u : ℚ)
    (hu0 : 0 ≤ u) (hu1 : u < 1)
    (hflat : s.probs.getD (searchSegment s.probs u) 0 =
      s.probs.getD (searchSegment s.probs u + 1) 0) :
    sample s u = .ok (s.xs.getD (searchSegment s.probs u) 0) := by
  have hc : ¬(u < 0 ∨ 1 ≤ u) := by
    push_neg
    exact ⟨hu0, hu1⟩
  unfold sample
  rw [if_neg hc]
  dsimp only
  rw [if_pos hflat]

/-- Witness for C6 on the sampler constructed from `rampCdf`, whose
first table segment is flat: sample(0) returns the lower endpoint 0. -/
theorem sample_flat_segment_witness :
    construct rampCdf 0 1 5 = .ok sRamp5 ∧ sample sRamp5 0 = .ok 0 := by
  refine ⟨construct_ramp5, ?_⟩
  have h := sample_flat_segment sRamp5 0 (le_refl 0) (by norm_num)
    (by norm_num [sRamp5, searchSegment, seekIdx])
  simpa [sRamp5, searchSegment, seekIdx] using h

/-- C7: for the sampler built from the thermal CDF x^2 over the unit
interval with a twelve-point table (resolution 1/11), sample(1/4) equals
1/2 within the table resolution. -/
theorem thermal_sample_quarter :
    ∃ s y, construct thermal 0 1 12 = .ok s ∧ sample s (1/4) = .ok y ∧
      |y - 1/2| ≤ 1/11 :=
  ⟨sThermal12, 241/484, construct_thermal12, sample_thermal12_quarter,
    by rw [abs_le]; norm_num⟩

/-- C8: each driver script draws exactly 10,000 samples from each
sampler it constructs, one sample call per loop iteration per
distribution. -/
theorem drivers_draw_ten_thousand
    (cosF f1 f2 f3 f4 f5 f6 g1 g2 g3 g4 g5 eP : ℚ → ℚ)
    (gen1 gen2 gen3 : ℕ → ℚ) :
    (binariesDriver cosF f1 f2 f3 f4 f5 f6 gen1).length = 10000 ∧
    (binariesDistributionsDriver g1 g2 g3 g4 g5 gen2).length = 10000 ∧
    (vtildeDriver eP gen3).length = 10000 ∧
    numSamples = 10000 := by
  refine ⟨?_, ?_, ?_, rfl⟩ <;>
    simp [binariesDriver, binariesDistributionsDriver, vtildeDriver, numSamples]

/-- C9: in the binaries driver, the separation stored at each index is
derived from the four parameter samples of the same iteration by the
formula bin_sep * (1 - eccen2) / (1 + eccen * cos(orbit_phase)). -/
theorem separation_formula (cosF f1 f2 f3 f4 f5 f6 : ℚ → ℚ) (gen : ℕ → ℚ)
    (i : ℕ) (hi : i < numSamples) :
    ((binariesDriver cosF f1 f2 f3 f4 f5 f6 gen).getD i default).separation =
      ((binariesDriver cosF f1 f2 f3 f4 f5 f6 gen).getD i default).bin_sep *
        (1 - ((binariesDriver cosF f1 f2 f3 f4 f5 f6 gen).getD i
            default).eccen2) /
        (1 + ((binariesDriver cosF f1 f2 f3 f4 f5 f6 gen).getD i
            default).eccen *
          cosF (((binariesDriver cosF f1 f2 f3 f4 f5 f6 gen).getD i
            default).orbit_phase)) := by
  unfold binariesDriver
  rw [getD_range_map _ default hi]

/-- Witness for C9 at index 0 with identity samplers and the counting
stream. -/
theorem separation_formula_witness :
    0 < numSamples ∧
    ((binariesDriver id id id id id id id (fun n => (n : ℚ))).getD 0
        default).separation =
      ((binariesDriver id id id id id id id (fun n => (n : ℚ))).getD 0
          default).bin_sep *
        (1 - ((binariesDriver id id id id id id id (fun n => (n : ℚ))).getD 0
            default).eccen2) /
        (1 + ((binariesDriver id id id id id id id (fun n => (n : ℚ))).getD 0
            default).eccen *
          id (((binariesDriver id id id id id id id (fun n => (n : ℚ))).getD 0
            default).orbit_phase)) :=
  ⟨by norm_num [numSamples],
    separation_formula id id id id id id id (fun n => (n : ℚ)) 0
      (by norm_num [numSamples])⟩

/-- C10: a plot call that omits the save-file argument writes to the
default path plot.png; in particular the eccentricity plot call of
binaries_distributions.cpp passes its path string as the units argument,
so that histogram goes to plot.png and the path ends up in the x label. -/
theorem eccentricity_plot_default_path (hist hist2 : List ℚ) (bins : ℕ)
    (color : String) (alpha : ℚ) (density cumulative : Bool)
    (parameter units : String) :
    (plot hist bins color alpha density cumulative parameter units
      plotSaveFileDefault).savePath = "plot.png" ∧
    (plotCounts hist bins color alpha density cumulative parameter units
      plotSaveFileDefault).savePath = "plot.png" ∧
    (eccentricityPlotCall hist2).savePath = "plot.png" ∧
    (eccentricityPlotCall hist2).xlabel =
      "Eccentricity $(./plots/eccentricity.png)$" :=
  ⟨rfl, rfl, rfl, rfl⟩

end Claims

end BinaryStatistics
